import Mathlib

/-!
Verification of the TechMentor-AI RAG pipeline.

Python strings are modelled as lists of characters (`PyStr`), so that
`len`, slicing, `split`, `strip` and `join` become ordinary list
operations with the same code-point semantics as Python.  Each model
definition is a direct translation of the corresponding function in the
repository sources (`src/preprocessing/chunker.py`, `src/rag/retriever.py`,
`src/rag/generator.py`, `src/llm/model.py`).
-/

namespace TechMentor

/-- Python strings are sequences of code points; we model them as `List Char`. -/
abbrev PyStr := List Char

/-- Embed a Lean string literal as a `PyStr`. -/
def str (s : String) : PyStr := s.data

/-- Python whitespace for `\s`, `str.split()` and `str.strip()` (ASCII range). -/
def pyIsSpace (c : Char) : Bool :=
  c == ' ' || c == '\t' || c == '\n' || c == '\r' || c == '\x0b' || c == '\x0c'

/-- Sentence-terminal punctuation used in the chunker's regex `(?<=[.!?])\s+`. -/
def isSentEnd (c : Char) : Bool :=
  c == '.' || c == '!' || c == '?'

/-- Python `str.lstrip()`: drop leading whitespace. -/
def pyStripLeft (l : PyStr) : PyStr := l.dropWhile pyIsSpace

/-- Python `str.rstrip()`: drop trailing whitespace. -/
def pyStripRight (l : PyStr) : PyStr := (l.reverse.dropWhile pyIsSpace).reverse

/-- Python `str.strip()`: drop surrounding whitespace. -/
def pyStrip (l : PyStr) : PyStr := pyStripRight (pyStripLeft l)

/-- Python `" ".join(ws)`. -/
def pyJoinSpace : List PyStr → PyStr
  | [] => []
  | [w] => w
  | w :: ws => w ++ ' ' :: pyJoinSpace ws

/-- Python slice `l[-k:]`; note that `l[-0:]` is the whole list. -/
def pySliceLast (l : List α) (k : Nat) : List α :=
  if k = 0 then l else l.drop (l.length - k)

/-- State machine for `re.split(r'(?<=[.!?])\s+', text)`: `delim` records
whether we are inside a whitespace run that matched the pattern, `prev` is the
previously scanned character (for the look-behind), `cur` is the reversed
current piece. -/
def splitSentAux : Bool → Option Char → PyStr → PyStr → List PyStr
  | _, _, [], cur => [cur.reverse]
  | delim, prev, c :: rest, cur =>
    if delim && pyIsSpace c then
      splitSentAux true (some c) rest cur
    else if !delim && pyIsSpace c &&
        (match prev with | some p => isSentEnd p | none => false) then
      cur.reverse :: splitSentAux true (some c) rest []
    else
      splitSentAux false (some c) rest (c :: cur)

/-- `re.split(r'(?<=[.!?])\s+', text)` from `TextChunker._chunk_text`. -/
def splitSentences (text : PyStr) : List PyStr :=
  splitSentAux false none text []

/-- A chunk produced by `TextChunker._chunk_text`. -/
structure PyChunk where
  text : PyStr
  metadata : List (PyStr × PyStr)
  deriving DecidableEq, Repr

/-- `leadsWith p l` holds when `p` is an initial segment of `l`
(Python `l.startswith(p)`). -/
def leadsWith : PyStr → PyStr → Bool
  | [], _ => true
  | _ :: _, [] => false
  | a :: as, b :: bs => a == b && leadsWith as bs

/-- Every two adjacent elements of a list are related by `R`. -/
def Consec (R : α → α → Prop) : List α → Prop
  | [] => True
  | [_] => True
  | a :: b :: l => R a b ∧ Consec R (b :: l)

/-- A web search result `{title, url, snippet}`; `url` is optional and may
be empty. -/
structure SearchResult where
  title : PyStr
  url : Option PyStr
  snippet : PyStr
  deriving DecidableEq, Repr

/-- The extraction loop of `Generator.perform_dynamic_search` (lines 67-71):
for each enumerated result with a truthy `url`, label the extracted content
with its ordinal and URL. `extract` stands for
`self.dynamic_search.extract_content`. -/
def searchEntriesAux (extract : PyStr → PyStr) : Nat → List SearchResult → List PyStr
  | _, [] => []
  | i, r :: rest =>
    match r.url with
    | some u =>
      if u ≠ [] then
        (str "[Source " ++ Nat.toDigits 10 (i + 1) ++ str ": " ++ u ++ str "]\n"
            ++ extract u ++ str "\n") :: searchEntriesAux extract (i + 1) rest
      else searchEntriesAux extract (i + 1) rest
    | none => searchEntriesAux extract (i + 1) rest

/-- Python `sep.join(parts)`. -/
def pyJoin (sep : PyStr) : List PyStr → PyStr
  | [] => []
  | [x] => x
  | x :: xs => x ++ sep ++ pyJoin sep xs

/-- `combined_content = "\n".join(all_content)` in `perform_dynamic_search`. -/
def combinedContent (extract : PyStr → PyStr) (rs : List SearchResult) : PyStr :=
  pyJoin (str "\n") (searchEntriesAux extract 0 rs)

/-- `Generator.perform_dynamic_search` (lines 56-81), with the search
results `rs` standing for the return of `self.dynamic_search.search`. -/
def performDynamicSearch (extract : PyStr → PyStr) (rs : List SearchResult) : PyStr :=
  if rs = [] then str "No relevant information found from web search."
  else
    let combined := combinedContent extract rs
    if 4000 < combined.length then
      combined.take 4000 ++ str "... [content truncated]"
    else combined

/-- Occurrence test backing Python's `"{context}" in self.prompt_template`. -/
def hasOccur (p : PyStr) : PyStr → Bool
  | [] => leadsWith p []
  | c :: rest => leadsWith p (c :: rest) || hasOccur p rest

/-- Fuel-driven split on a non-empty pattern (Python `s.split(pat)`);
the fuel is always instantiated to more than the length of the string. -/
def splitOnFuel (pat : PyStr) : Nat → PyStr → PyStr → List PyStr
  | 0, _, cur => [cur.reverse]
  | _ + 1, [], cur => [cur.reverse]
  | f + 1, c :: rest, cur =>
    if leadsWith pat (c :: rest) then
      cur.reverse :: splitOnFuel pat f (List.drop (pat.length - 1) rest) []
    else splitOnFuel pat f rest (c :: cur)

/-- Python `s.split(pat)` for non-empty `pat`. -/
def pySplitOn (s pat : PyStr) : List PyStr :=
  splitOnFuel pat (s.length + 1) s []

/-- Line 115: `self.prompt_template.format(context=..., question=...)`,
modelled for templates whose only replacement fields are the literal
`{context}` and `{question}` (the only shape the configuration documents). -/
def pyFormat (template context question : PyStr) : PyStr :=
  pyJoin context ((pySplitOn template (str "{context}")).map
    (fun seg => pyJoin question (pySplitOn seg (str "{question}"))))

/-- Lines 121-131: the TinyLlama fallback prompt f-string. -/
def defaultPrompt (context question : PyStr) : PyStr :=
  str "<|system|>\nYou are TechMentor AI, a helpful tech career advisor. Answer the user's question based on the following information:\n"
    ++ context ++ str "\n</s>\n\n<|user|>\n" ++ question
    ++ str "\n</s>\n\n<|assistant|>\n"

/-- Lines 113-131: prompt assembly. -/
def buildPrompt (template context question : PyStr) : PyStr :=
  if hasOccur (str "{context}") template && hasOccur (str "{question}") template then
    pyFormat template context question
  else defaultPrompt context question

/-- `LocalLLM.generate` (lines 50-67): a load failure yields the load-error
string, and any exception raised by the model call is caught and rendered
as `"Error during text generation: ..."` instead of propagating. -/
def localLLMGenerate (modelLoaded loadSuccess : Bool)
    (raw : PyStr → Except PyStr PyStr) (prompt : PyStr) : PyStr :=
  if !modelLoaded && !loadSuccess then
    str "Error: Model could not be loaded. Please check the logs."
  else
    match raw prompt with
    | Except.ok r => r
    | Except.error e => str "Error during text generation: " ++ e

/-- `uniq` is a possible value of `list(set(l))`: duplicate-free and with
exactly the members of `l`, in an order the set does not determine. -/
def SetOrder (l uniq : List PyStr) : Prop :=
  uniq.Nodup ∧ (∀ s ∈ uniq, s ∈ l) ∧ (∀ s ∈ l, s ∈ uniq)

/-! ### Retriever (`src/rag/retriever.py`) -/

/-- A retrieved document: `{text, metadata}` as used by the retriever and
generator (metadata is a Python dict, modelled as an association list). -/
structure Doc where
  text : PyStr
  metadata : List (PyStr × PyStr)
  deriving DecidableEq, Repr

/-! ### Generator (`src/rag/generator.py`) -/

/-- `Generator.is_content_relevant` (lines 37-54). The `question` argument
is accepted but never inspected, exactly as in the code. -/
def isContentRelevant (question : PyStr) (docs : List Doc) : Bool :=
  if docs = [] then false
  else if docs.length < 2 then false
  else if (docs.map (fun d => d.text.length)).sum < 500 then false
  else true

/-! ### Generator orchestration (`Generator.generate_response`) and the
LLM wrapper (`LocalLLM.generate`). -/

/-- The response envelope returned by `Generator.generate_response`. -/
structure Response where
  question : PyStr
  answer : PyStr
  sources : List PyStr
  used_dynamic_search : Bool
  deriving DecidableEq, Repr

/-! ### Occurrence counting, used to state the `[Document i]` marker and
`Source:` line properties of `format_for_prompt` (claim C6). -/

/-- Number of positions of `l` at which the pattern `p` starts. -/
def countOcc (p : PyStr) : PyStr → Nat
  | [] => 0
  | c :: rest => (if leadsWith p (c :: rest) then 1 else 0) + countOcc p rest

/-! ### Display formatting (`Generator.format_response_with_sources`). -/

/-- The source-enumeration loop of `format_response_with_sources`
(lines 155-158): entries that are empty or `"Unknown"` print nothing, but
the enumeration index `i` advances regardless. -/
def sourceLinesAux (i : Nat) : List PyStr → PyStr
  | [] => []
  | s :: rest =>
    (if s ≠ [] ∧ s ≠ str "Unknown" then
      Nat.toDigits 10 (i + 1) ++ str ". " ++ s ++ str "\n"
    else [])
      ++ sourceLinesAux (i + 1) rest

/-- The per-document block of `Retriever.format_for_prompt` (lines 62-70);
`"-" * 40` is the horizontal rule. -/
def docBlock (i : Nat) (d : Doc) : PyStr :=
  str "[Document " ++ Nat.toDigits 10 (i + 1) ++ str "]\n" ++ d.text ++ str "\n"
    ++ (match List.lookup (str "source") d.metadata with
        | some s => if s ≠ [] then str "Source: " ++ s ++ str "\n" else []
        | none => [])
    ++ str "\n" ++ List.replicate 40 '-' ++ str "\n\n"

/-- The accumulation loop of `format_for_prompt`, with the running
enumeration index. -/
def blocksCat : Nat → List Doc → PyStr
  | _, [] => []
  | i, d :: ds => docBlock i d ++ blocksCat (i + 1) ds

/-- `Retriever.format_for_prompt(results)` (lines 55-72). -/
def formatForPrompt (docs : List Doc) : PyStr :=
  if docs = [] then str "No relevant information found."
  else str "RELEVANT INFORMATION:\n\n" ++ blocksCat 0 docs

/-- Line 91: `sources = [doc["metadata"].get("source", "Unknown") for doc in
retrieved_docs]`. -/
def localSources (docs : List Doc) : List PyStr :=
  docs.map (fun d => (List.lookup (str "source") d.metadata).getD (str "Unknown"))

/-- Whether `format_for_prompt` prints a `Source:` line for a document:
its metadata holds a non-empty `source` value. -/
def hasSrc (d : Doc) : Bool :=
  match List.lookup (str "source") d.metadata with
  | some s => !s.isEmpty
  | none => false

/-- The source-line part of a document block. -/
def srcPart (d : Doc) : PyStr :=
  match List.lookup (str "source") d.metadata with
  | some s => if s ≠ [] then str "Source: " ++ s ++ str "\n" else []
  | none => []

/-- `Generator.format_response_with_sources` (lines 144-160).
`uniqueSources` stands for `list(set(response["sources"]))`, whose order
Python's unordered `set` does not fix, so it is passed as a parameter
constrained by `SetOrder`. -/
def formatResponseWithSources (resp : Response) (uniqueSources : List PyStr) :
    PyStr :=
  resp.answer
    ++ (if resp.used_dynamic_search then
          str "\n\n[Note: This response includes information from a real-time web search]"
        else [])
    ++ (if resp.sources ≠ [] then
          str "\n\nSources:\n" ++ sourceLinesAux 0 uniqueSources
        else [])

/-- Accumulator-based word scanner backing `pyWords` (`cur` is the reversed
current word). -/
def wordsAux (cur : PyStr) : PyStr → List PyStr
  | [] => if cur = [] then [] else [cur.reverse]
  | c :: rest =>
    if pyIsSpace c then
      if cur = [] then wordsAux [] rest else cur.reverse :: wordsAux [] rest
    else wordsAux (c :: cur) rest

/-- Python `str.split()` with no argument: maximal runs of non-whitespace. -/
def pyWords (l : PyStr) : List PyStr := wordsAux [] l

/-- The overlap seed computed when a chunk is closed:
`" ".join(words[-chunk_overlap:]) if len(words) > chunk_overlap else ""`. -/
def overlapOf (cur : PyStr) (chunkOverlap : Nat) : PyStr :=
  let ws := pyWords cur
  if chunkOverlap < ws.length then pyJoinSpace (pySliceLast ws chunkOverlap) else []

/-- The sentence-accumulation loop of `TextChunker._chunk_text` (lines 37-62):
`cur` is `current_chunk`. -/
def chunkLoop (chunkSize chunkOverlap minLen : Nat) (md : List (PyStr × PyStr)) :
    List PyStr → PyStr → List PyChunk
  | [], cur =>
    if cur ≠ [] ∧ minLen ≤ cur.length then [⟨pyStrip cur, md⟩] else []
  | s :: rest, cur =>
    if chunkSize < cur.length + s.length ∧ minLen ≤ cur.length then
      ⟨pyStrip cur, md⟩ ::
        chunkLoop chunkSize chunkOverlap minLen md rest
          (overlapOf cur chunkOverlap ++ ' ' :: s)
    else
      chunkLoop chunkSize chunkOverlap minLen md rest
        (if cur ≠ [] then cur ++ ' ' :: s else s)

/-- `TextChunker._chunk_text(text, metadata)` with the configured
`chunk_size`, `chunk_overlap` and `min_chunk_length`. -/
def chunkText (chunkSize chunkOverlap minLen : Nat) (md : List (PyStr × PyStr))
    (text : PyStr) : List PyChunk :=
  chunkLoop chunkSize chunkOverlap minLen md (splitSentences text) []

/-- The same accumulation loop as `chunkLoop`, recording the value of
`current_chunk` at each point where a chunk is appended (instead of its
stripped text): branch for branch identical to lines 37-62. -/
def chunkLoopBuf (chunkSize chunkOverlap minLen : Nat) :
    List PyStr → PyStr → List PyStr
  | [], cur =>
    if cur ≠ [] ∧ minLen ≤ cur.length then [cur] else []
  | s :: rest, cur =>
    if chunkSize < cur.length + s.length ∧ minLen ≤ cur.length then
      cur :: chunkLoopBuf chunkSize chunkOverlap minLen rest
        (overlapOf cur chunkOverlap ++ ' ' :: s)
    else
      chunkLoopBuf chunkSize chunkOverlap minLen rest
        (if cur ≠ [] then cur ++ ' ' :: s else s)

/-- The sequence of accumulated buffers from which `_chunk_text` emits its
chunks, in emission order. -/
def chunkBuffers (chunkSize chunkOverlap minLen : Nat) (text : PyStr) :
    List PyStr :=
  chunkLoopBuf chunkSize chunkOverlap minLen (splitSentences text) []

/-- The last `co` words of a chunk text, joined by single spaces — the
overlap seed named by the specification. -/
def overlapSeed (co : Nat) (t : PyStr) : PyStr :=
  pyJoinSpace ((pyWords t).drop ((pyWords t).length - co))

/-- The adjacent-chunk overlap relation: when the earlier chunk has strictly
more than `co` words, the later chunk's text begins with the overlap seed. -/
def OverlapRel (co : Nat) (c1 c2 : PyChunk) : Prop :=
  co < (pyWords c1.text).length →
    leadsWith (overlapSeed co c1.text) c2.text = true

/-- The post-filter of `Retriever.retrieve` (lines 42-49): a document fails
only when some filter key is present in its metadata with a different
value. -/
def matchesFilters (filters md : List (PyStr × PyStr)) : Bool :=
  filters.all (fun kv =>
    match List.lookup kv.1 md with
    | some v => v == kv.2
    | none => true)

/-- `Retriever.retrieve` after the vector search: `results` stands for the
list returned by `self.vector_db.search`, and the `if filters and results:`
post-filter is applied to it. -/
def retrieve (results : List Doc) (filters : List (PyStr × PyStr)) : List Doc :=
  if filters ≠ [] ∧ results ≠ [] then
    results.filter (fun d => matchesFilters filters d.metadata)
  else results

/-- The external collaborators and configuration feeding one
`generate_response` call: `retrievedDocs` is the return of
`self.retriever.retrieve(question)`, `searchResults` the return of
`self.dynamic_search.search(question, 3)`, `extract` is
`self.dynamic_search.extract_content`, and `llmRaw` is the underlying
model invocation `self.model(prompt, ...)`, which may raise (`Except.error`). -/
structure GenInputs where
  question : PyStr
  retrievedDocs : List Doc
  dynamicSearchEnabled : Bool
  searchResults : List SearchResult
  extract : PyStr → PyStr
  promptTemplate : PyStr
  modelLoaded : Bool
  loadSuccess : Bool
  llmRaw : PyStr → Except PyStr PyStr

/-- Lines 92-96: `dynamic_content` is set (to the result of
`perform_dynamic_search`) exactly when dynamic search is enabled and the
relevance gate judges the local content insufficient; otherwise it stays
`None`. -/
def dynamicContent (a : GenInputs) : Option PyStr :=
  if a.dynamicSearchEnabled && !isContentRelevant a.question a.retrievedDocs then
    some (performDynamicSearch a.extract a.searchResults)
  else none

/-- Lines 98-111: the context/sources merge of `generate_response`. -/
def mergeContextSources (a : GenInputs) : PyStr × List PyStr :=
  let localCtx := formatForPrompt a.retrievedDocs
  let srcs := localSources a.retrievedDocs
  match dynamicContent a with
  | some dc =>
    if dc ≠ [] ∧ dc ≠ str "No relevant information found from web search." then
      (if localCtx = str "No relevant information found." then dc
       else localCtx ++ str "\n\nADDITIONAL WEB SEARCH RESULTS:\n" ++ dc,
       srcs ++ [str "Dynamic Web Search"])
    else (localCtx, srcs)
  | none => (localCtx, srcs)

/-- `Generator.generate_response` (lines 83-142). -/
def generateResponse (a : GenInputs) : Response :=
  let cs := mergeContextSources a
  { question := a.question
    answer := localLLMGenerate a.modelLoaded a.loadSuccess a.llmRaw
      (buildPrompt a.promptTemplate cs.1 a.question)
    sources := cs.2
    used_dynamic_search := (dynamicContent a).isSome }

/-! Lemmas about `pyWords`, `pyStrip` and `pyJoinSpace` needed for the
chunk-overlap property. -/

theorem wordsAux_dropLeading (l : PyStr) :
    wordsAux [] (l.dropWhile pyIsSpace) = wordsAux [] l := by
  induction l with
  | nil => rfl
  | cons c l ih =>
    by_cases h : pyIsSpace c = true
    · rw [List.dropWhile_cons_of_pos h, ih]
      simp [wordsAux, h]
    · rw [List.dropWhile_cons_of_neg h]

/-! The chunk-accumulation loop invariants. -/

/-- The chunks emitted by `chunkLoop` are exactly, in order, the stripped
forms of the buffers recorded by `chunkLoopBuf`. -/
theorem chunkLoop_map_buf (chunkSize chunkOverlap minLen : Nat)
    (md : List (PyStr × PyStr)) :
    ∀ ss cur,
      (chunkLoop chunkSize chunkOverlap minLen md ss cur).map
        (fun c => c.text) =
      (chunkLoopBuf chunkSize chunkOverlap minLen ss cur).map pyStrip := by
  intro ss
  induction ss with
  | nil =>
    intro cur
    simp only [chunkLoop, chunkLoopBuf]
    split
    · simp
    · simp
  | cons s rest ih =>
    intro cur
    simp only [chunkLoop, chunkLoopBuf]
    split
    · simp [ih]
    · exact ih _

/-- Every buffer from which `chunkLoop` emits a chunk has un-stripped
length at least `min_chunk_length`. -/
theorem chunkLoopBuf_minLen (chunkSize chunkOverlap minLen : Nat) :
    ∀ ss cur buf, buf ∈ chunkLoopBuf chunkSize chunkOverlap minLen ss cur →
      minLen ≤ buf.length := by
  intro ss
  induction ss with
  | nil =>
    intro cur buf hb
    simp only [chunkLoopBuf] at hb
    split at hb
    · rename_i hcond
      simp at hb
      rw [hb]
      exact hcond.2
    · simp at hb
  | cons s rest ih =>
    intro cur buf hb
    simp only [chunkLoopBuf] at hb
    split at hb
    · rename_i hcond
      rcases List.mem_cons.mp hb with hb | hb
      · rw [hb]
        exact hcond.2
      · exact ih _ buf hb
    · exact ih _ buf hb

/-! Digits of the marker ordinals are plain decimal digits, hence never
collide with the pattern heads `[` and `S` or with newlines. -/

theorem digitChar_isDigit : ∀ m, m < 10 → (Nat.digitChar m).isDigit = true := by
  decide

theorem leadsWith_self_append (a t : PyStr) : leadsWith a (a ++ t) = true := by
  induction a with
  | nil => rfl
  | cons c a ih => simp [leadsWith, ih]

theorem wordsAux_snocSpace (sp : Char) (hsp : pyIsSpace sp = true) (l : PyStr) :
    ∀ cur, wordsAux cur (l ++ [sp]) = wordsAux cur l := by
  induction l with
  | nil =>
    intro cur
    by_cases h : cur = [] <;> simp [wordsAux, hsp, h]
  | cons c l ih =>
    intro cur
    by_cases h : pyIsSpace c = true
    · by_cases hc : cur = [] <;> simp [wordsAux, h, hc, ih]
    · simp [wordsAux, h, ih]

theorem words_appendSpaces (ss : PyStr) (hss : ∀ c ∈ ss, pyIsSpace c = true) :
    ∀ l, wordsAux [] (l ++ ss) = wordsAux [] l := by
  induction ss with
  | nil => intro l; simp
  | cons s ss ih =>
    intro l
    have hs : pyIsSpace s = true := hss s (by simp)
    have hss' : ∀ c ∈ ss, pyIsSpace c = true := fun c hc => hss c (by simp [hc])
    have hsplit : l ++ s :: ss = (l ++ [s]) ++ ss := by simp
    rw [hsplit, ih hss' (l ++ [s]), wordsAux_snocSpace s hs]

theorem stripRight_decomp (l : PyStr) :
    l = pyStripRight l ++ (l.reverse.takeWhile pyIsSpace).reverse ∧
      (∀ c ∈ (l.reverse.takeWhile pyIsSpace).reverse, pyIsSpace c = true) := by
  constructor
  · conv_lhs => rw [← l.reverse_reverse]
    unfold pyStripRight
    rw [← List.reverse_append, List.takeWhile_append_dropWhile]
  · intro c hc
    rw [List.mem_reverse] at hc
    exact List.mem_takeWhile_imp hc

theorem words_stripRight (l : PyStr) : pyWords (pyStripRight l) = pyWords l := by
  obtain ⟨hdec, hsp⟩ := stripRight_decomp l
  unfold pyWords
  conv_rhs => rw [hdec]
  rw [words_appendSpaces _ hsp]

theorem words_strip (l : PyStr) : pyWords (pyStrip l) = pyWords l := by
  unfold pyStrip
  rw [words_stripRight]
  unfold pyWords pyStripLeft
  exact wordsAux_dropLeading l

theorem wordsAux_sound (l : PyStr) :
    ∀ cur, (∀ c ∈ cur, pyIsSpace c = false) →
      ∀ w ∈ wordsAux cur l, w ≠ [] ∧ ∀ c ∈ w, pyIsSpace c = false := by
  induction l with
  | nil =>
    intro cur hcur w hw
    by_cases h : cur = []
    · simp [wordsAux, h] at hw
    · simp [wordsAux, h] at hw
      subst hw
      refine ⟨by simpa using h, ?_⟩
      intro c hc
      exact hcur c (List.mem_reverse.mp hc)
  | cons c l ih =>
    intro cur hcur w hw
    by_cases h : pyIsSpace c = true
    · by_cases hc : cur = []
      · simp [wordsAux, h, hc] at hw
        exact ih [] (by simp) w hw
      · simp [wordsAux, h, hc] at hw
        rcases hw with hw | hw
        · subst hw
          refine ⟨by simpa using hc, ?_⟩
          intro d hd
          exact hcur d (List.mem_reverse.mp hd)
        · exact ih [] (by simp) w hw
    · simp [wordsAux, h] at hw
      refine ih (c :: cur) ?_ w hw
      intro d hd
      rcases List.mem_cons.mp hd with hd | hd
      · subst hd; simpa using h
      · exact hcur d hd

theorem pyWords_sound (l : PyStr) :
    ∀ w ∈ pyWords l, w ≠ [] ∧ ∀ c ∈ w, pyIsSpace c = false :=
  wordsAux_sound l [] (by simp)

theorem joinSpace_ne_nil (ws : List PyStr) (hne : ws ≠ [])
    (hws : ∀ w ∈ ws, w ≠ []) : pyJoinSpace ws ≠ [] := by
  match ws with
  | [] => exact absurd rfl hne
  | [w] => simpa [pyJoinSpace] using hws w (by simp)
  | w :: w' :: ws =>
    simp [pyJoinSpace]

theorem joinSpace_headNotSpace (ws : List PyStr)
    (hws : ∀ w ∈ ws, w ≠ [] ∧ ∀ c ∈ w, pyIsSpace c = false) :
    ∀ c, (pyJoinSpace ws).head? = some c → pyIsSpace c = false := by
  match ws with
  | [] => intro c hc; simp [pyJoinSpace] at hc
  | [w] =>
    intro c hc
    simp only [pyJoinSpace] at hc
    exact (hws w (by simp)).2 c (List.mem_of_mem_head? hc)
  | w :: w' :: ws =>
    intro c hc
    obtain ⟨hw, hwc⟩ := hws w (by simp)
    simp only [pyJoinSpace] at hc
    match w, hw with
    | d :: w, _ =>
      simp at hc
      subst hc
      exact hwc d (by simp)

theorem joinSpace_lastNotSpace (ws : List PyStr)
    (hws : ∀ w ∈ ws, w ≠ [] ∧ ∀ c ∈ w, pyIsSpace c = false) :
    ∀ c, (pyJoinSpace ws).reverse.head? = some c → pyIsSpace c = false := by
  induction ws with
  | nil => intro c hc; simp [pyJoinSpace] at hc
  | cons w ws ih =>
    intro c hc
    match ws with
    | [] =>
      obtain ⟨hw, hwc⟩ := hws w (by simp)
      simp only [pyJoinSpace] at hc
      exact hwc c (by
        have := List.mem_of_mem_head? hc
        exact List.mem_reverse.mp this)
    | w' :: ws' =>
      have hne : pyJoinSpace (w' :: ws') ≠ [] := by
        refine joinSpace_ne_nil _ (by simp) ?_
        intro u hu
        exact (hws u (by simp [hu])).1
      simp only [pyJoinSpace] at hc
      rw [List.reverse_append] at hc
      have hrev : (pyJoinSpace (w' :: ws')).reverse ≠ [] := by
        simpa using hne
      match hJ : (pyJoinSpace (w' :: ws')).reverse with
      | [] => exact absurd hJ hrev
      | d :: t =>
        rw [List.reverse_cons, List.append_assoc, hJ] at hc
        simp at hc
        subst hc
        refine ih (fun u hu => hws u (by simp [hu])) d ?_
        rw [hJ]
        rfl

/-- `l.dropWhile p = l` as soon as the head does not satisfy `p`. -/
theorem dropWhile_id_of_head (p : Char → Bool) (l : PyStr)
    (h : ∀ c, l.head? = some c → p c = false) : l.dropWhile p = l := by
  match l with
  | [] => rfl
  | c :: t => simp [List.dropWhile_cons, h c rfl]

theorem dropWhile_append_of_ne (p : Char → Bool) (a b : PyStr)
    (h : a.dropWhile p ≠ []) : (a ++ b).dropWhile p = a.dropWhile p ++ b := by
  induction a with
  | nil => exact absurd rfl h
  | cons c a ih =>
    by_cases hc : p c = true
    · rw [List.dropWhile_cons_of_pos hc] at h ⊢
      rw [List.cons_append, List.dropWhile_cons_of_pos hc]
      exact ih h
    · rw [List.dropWhile_cons_of_neg hc] at h ⊢
      rw [List.cons_append, List.dropWhile_cons_of_neg hc]

/-- Stripping `seed ++ rest` keeps `seed` as a leading segment when `seed`
is non-empty and neither starts nor ends with whitespace. -/
theorem strip_keepsLead (seed rest : PyStr) (h0 : seed ≠ [])
    (hh : ∀ c, seed.head? = some c → pyIsSpace c = false)
    (hl : ∀ c, seed.reverse.head? = some c → pyIsSpace c = false) :
    leadsWith seed (pyStrip (seed ++ rest)) = true := by
  unfold pyStrip pyStripLeft pyStripRight
  have h1 : (seed ++ rest).dropWhile pyIsSpace = seed ++ rest := by
    refine dropWhile_id_of_head _ _ ?_
    intro c hc
    match seed, h0 with
    | d :: s, _ =>
      simp at hc
      subst hc
      exact hh d rfl
  rw [h1, List.reverse_append]
  by_cases h2 : rest.reverse.dropWhile pyIsSpace = []
  · rw [List.dropWhile_append]
    simp only [h2]
    simp only [List.isEmpty_nil, if_true]
    rw [dropWhile_id_of_head _ _ hl, List.reverse_reverse]
    simpa using leadsWith_self_append seed []
  · rw [dropWhile_append_of_ne _ _ _ h2, List.reverse_append, List.reverse_reverse]
    exact leadsWith_self_append seed _

/-- The first chunk produced by `chunkLoop ss cur` is the stripped form of
`cur` extended by some suffix. -/
theorem chunkLoop_headText (chunkSize chunkOverlap minLen : Nat)
    (md : List (PyStr × PyStr)) :
    ∀ ss cur c rest',
      chunkLoop chunkSize chunkOverlap minLen md ss cur = c :: rest' →
      ∃ ext : PyStr, c.text = pyStrip (cur ++ ext) := by
  intro ss
  induction ss with
  | nil =>
    intro cur c rest' hc
    simp only [chunkLoop] at hc
    split at hc
    · simp at hc
      obtain ⟨hc1, _⟩ := hc
      subst hc1
      exact ⟨[], by simp⟩
    · simp at hc
  | cons s rest ih =>
    intro cur c rest' hc
    simp only [chunkLoop] at hc
    split at hc
    · have hc0 : c = PyChunk.mk (pyStrip cur) md := (List.cons_eq_cons.mp hc).1.symm
      exact ⟨[], by rw [hc0]; simp⟩
    · split at hc
      · obtain ⟨ext, hext⟩ := ih _ c rest' hc
        refine ⟨' ' :: s ++ ext, ?_⟩
        rw [hext]
        simp
      · rename_i hcur
        obtain ⟨ext, hext⟩ := ih _ c rest' hc
        have hcur' : cur = [] := by
          by_contra hne
          exact hcur hne
        subst hcur'
        exact ⟨s ++ ext, by simpa using hext⟩

/-- Core of the overlap property: when the closed buffer has more than
`co` words, the seeded next buffer keeps the overlap seed as a leading
segment even after stripping. -/
theorem seed_into_next (co : Nat) (cur tail : PyStr)
    (hw : co < (pyWords cur).length) :
    leadsWith (overlapSeed co (pyStrip cur))
      (pyStrip (overlapOf cur co ++ tail)) = true := by
  unfold overlapSeed
  rw [words_strip]
  by_cases hco : co = 0
  · subst hco
    simp [List.drop_length, pyJoinSpace, leadsWith]
  · have hslice : pySliceLast (pyWords cur) co =
        (pyWords cur).drop ((pyWords cur).length - co) := by
      unfold pySliceLast
      rw [if_neg hco]
    have hover : overlapOf cur co =
        pyJoinSpace ((pyWords cur).drop ((pyWords cur).length - co)) := by
      unfold overlapOf
      rw [if_pos hw, hslice]
    set ds := (pyWords cur).drop ((pyWords cur).length - co) with hds
    have hlen : ds.length = co := by
      rw [hds, List.length_drop]
      omega
    have hmem : ∀ w ∈ ds, w ≠ [] ∧ ∀ c ∈ w, pyIsSpace c = false := by
      intro w hwmem
      exact pyWords_sound cur w (List.drop_subset _ _ hwmem)
    have hne : ds ≠ [] := by
      intro hnil
      rw [hnil] at hlen
      simp at hlen
      omega
    rw [hover]
    exact strip_keepsLead _ tail
      (joinSpace_ne_nil ds hne (fun w hwmem => (hmem w hwmem).1))
      (joinSpace_headNotSpace ds hmem)
      (joinSpace_lastNotSpace ds hmem)

theorem consec_get {R : α → α → Prop} :
    ∀ l : List α, Consec R l → ∀ i (h : i + 1 < l.length),
      R (l.get ⟨i, Nat.lt_of_succ_lt h⟩) (l.get ⟨i + 1, h⟩) := by
  intro l
  induction l with
  | nil =>
    intro _ i h
    simp at h
  | cons a l ih =>
    intro hC i h
    match l, i with
    | [], 0 => simp at h
    | b :: l', 0 => exact hC.1
    | b :: l', Nat.succ j =>
      have h' : j + 1 < (b :: l').length := by simpa using h
      exact ih hC.2 j h'

/-- Consecutive chunks emitted by `chunkLoop` satisfy the overlap property
with the strict word-count guard. -/
theorem chunkLoop_consec (cs co ml : Nat) (md : List (PyStr × PyStr)) :
    ∀ ss cur, Consec (OverlapRel co) (chunkLoop cs co ml md ss cur) := by
  intro ss
  induction ss with
  | nil =>
    intro cur
    simp only [chunkLoop]
    split
    · trivial
    · trivial
  | cons s rest ih =>
    intro cur
    by_cases hclose : cs < cur.length + s.length ∧ ml ≤ cur.length
    · simp only [chunkLoop, if_pos hclose]
      match hL' : chunkLoop cs co ml md rest (overlapOf cur co ++ ' ' :: s) with
      | [] => trivial
      | c1 :: rest'' =>
        refine ⟨?_, by rw [← hL']; exact ih _⟩
        intro hw
        obtain ⟨ext, hext⟩ :=
          chunkLoop_headText cs co ml md rest _ c1 rest'' hL'
        have hw' : co < (pyWords cur).length := by
          simpa [words_strip] using hw
        have hbuf : overlapOf cur co ++ ' ' :: s ++ ext =
            overlapOf cur co ++ (' ' :: (s ++ ext)) := by simp
        rw [hbuf] at hext
        show leadsWith (overlapSeed co (pyStrip cur)) c1.text = true
        rw [hext]
        exact seed_into_next co cur (' ' :: (s ++ ext)) hw'
    · simp only [chunkLoop, if_neg hclose]
      exact ih _

/-- C3 (amended): the chunks emitted by `TextChunker._chunk_text` are
exactly, in order, the whitespace-stripped forms of the accumulated buffers
the loop held at its emission points (`chunkBuffers`, the same recursion
recording `current_chunk` instead of `current_chunk.strip()`), and every one
of those actual buffers has un-stripped length at least `min_chunk_length`
(a trailing buffer below the bound is dropped); the emitted text itself can
be shorter than the bound only by the surrounding whitespace that `strip()`
removes. -/
theorem chunk_min_length_amended (cs co ml : Nat) (md : List (PyStr × PyStr))
    (text : PyStr) :
    (chunkText cs co ml md text).map (fun c => c.text) =
      (chunkBuffers cs co ml text).map pyStrip ∧
    ∀ buf ∈ chunkBuffers cs co ml text, ml ≤ buf.length :=
  ⟨chunkLoop_map_buf cs co ml md (splitSentences text) [],
    fun buf hb => chunkLoopBuf_minLen cs co ml (splitSentences text) [] buf hb⟩

/-- Witness for C3 at `chunk_size = 6`, `chunk_overlap = 1`,
`min_chunk_length = 4`, text `"abc. cd."`: the recorded buffers are
`["abc.", " cd."]`, the emitted texts are their strips `["abc.", "cd."]`,
and the bound `4 ≤ length` holds for the actual buffer `" cd."` even though
its stripped text has length 3. -/
theorem chunk_min_length_amended_witness :
    ((chunkText 6 1 4 [] (str "abc. cd.")).map (fun c => c.text) =
      (chunkBuffers 6 1 4 (str "abc. cd.")).map pyStrip) ∧
    chunkBuffers 6 1 4 (str "abc. cd.") = [str "abc.", str " cd."] ∧
    (str " cd." ∈ chunkBuffers 6 1 4 (str "abc. cd.")) ∧
    4 ≤ (str " cd.").length :=
  ⟨(chunk_min_length_amended 6 1 4 [] (str "abc. cd.")).1,
    by decide,
    by decide,
    (chunk_min_length_amended 6 1 4 [] (str "abc. cd.")).2
      (str " cd.") (by decide)⟩

/-- C3 (counterexample to the claim as stated): with `chunk_size = 6`,
`chunk_overlap = 1`, `min_chunk_length = 4` and input text `"abc. cd."`,
the chunker emits the final chunk `"cd."` of length `3 < 4`, because the
length check is made on the un-stripped buffer `" cd."` while the emitted
text is stripped. -/
theorem chunk_min_length_cex :
    (chunkText 6 1 4 [] (str "abc. cd.")).map (fun c => c.text.length) = [4, 3] ∧
    ¬ (∀ c ∈ chunkText 6 1 4 [] (str "abc. cd."), 4 ≤ c.text.length) := by
  decide

/-- C4 (amended): for two consecutive emitted chunks, when the first chunk
has STRICTLY MORE than `chunk_overlap` words, the second chunk's text begins
with the overlap seed, the space-join of the last `chunk_overlap` words of
the first chunk's text. (At exactly `chunk_overlap` words the code's guard
`len(words) > chunk_overlap` fails and no overlap is seeded.) -/
theorem chunk_overlap_amended (cs co ml : Nat) (md : List (PyStr × PyStr))
    (text : PyStr) (i : Nat)
    (h : i + 1 < (chunkText cs co ml md text).length)
    (hw : co < (pyWords ((chunkText cs co ml md text).get
      ⟨i, Nat.lt_of_succ_lt h⟩).text).length) :
    leadsWith
      (overlapSeed co ((chunkText cs co ml md text).get
        ⟨i, Nat.lt_of_succ_lt h⟩).text)
      ((chunkText cs co ml md text).get ⟨i + 1, h⟩).text = true :=
  consec_get (chunkText cs co ml md text)
    (chunkLoop_consec cs co ml md (splitSentences text) []) i h hw

/-- Witness for C4 at `chunk_size = 5`, `chunk_overlap = 1`,
`min_chunk_length = 1`, text `"ab cd. ef."`: chunks are `"ab cd."` and
`"cd. ef."`, and the second begins with the seed `"cd."`. -/
theorem chunk_overlap_amended_witness :
    0 + 1 < (chunkText 5 1 1 [] (str "ab cd. ef.")).length ∧
    1 < (pyWords ((chunkText 5 1 1 [] (str "ab cd. ef.")).get
      ⟨0, by decide⟩).text).length ∧
    leadsWith
      (overlapSeed 1 ((chunkText 5 1 1 [] (str "ab cd. ef.")).get
        ⟨0, by decide⟩).text)
      ((chunkText 5 1 1 [] (str "ab cd. ef.")).get ⟨0 + 1, by decide⟩).text
      = true :=
  ⟨by decide, by decide,
    chunk_overlap_amended 5 1 1 [] (str "ab cd. ef.") 0 (by decide) (by decide)⟩

/-- C4 (counterexample to the claim as stated, which requires only AT LEAST
`chunk_overlap` words): with `chunk_size = 5`, `chunk_overlap = 1`,
`min_chunk_length = 3` and text `"ab. cd."`, the first chunk `"ab."` has
exactly `1` word (so "at least `chunk_overlap`" holds), yet the second chunk
`"cd."` does not begin with the last word `"ab."` of the first. -/
theorem chunk_overlap_cex :
    (chunkText 5 1 3 [] (str "ab. cd.")).map (fun c => c.text) =
      [str "ab.", str "cd."] ∧
    1 ≤ (pyWords (str "ab.")).length ∧
    leadsWith (overlapSeed 1 (str "ab.")) (str "cd.") = false := by
  decide

/-- C2 (counterexample to the claim as stated): a retrieved document whose
metadata lacks the filter key `"source"` is KEPT by `Retriever.retrieve`,
not dropped — the code only rejects a document when the key is present with
a different value. -/
theorem retrieve_missing_key_cex :
    retrieve [Doc.mk (str "t") []] [(str "source", str "web")] =
      [Doc.mk (str "t") []] ∧
    List.lookup (str "source") ([] : List (PyStr × PyStr)) = none := by
  decide

theorem matchesFilters_iff (f md : List (PyStr × PyStr)) :
    matchesFilters f md = true ↔
      ∀ kv ∈ f, ∀ v, List.lookup kv.1 md = some v → v = kv.2 := by
  unfold matchesFilters
  rw [List.all_eq_true]
  constructor
  · intro h kv hkv v hv
    have hm := h kv hkv
    rw [hv] at hm
    exact eq_of_beq hm
  · intro h kv hkv
    cases hl : List.lookup kv.1 md with
    | none => simp
    | some v =>
      simp only []
      exact beq_iff_eq.mpr (h kv hkv v hl)

/-- C2 (amended): for a non-empty filters mapping, a retrieved document is
kept by `Retriever.retrieve` if and only if every filter key is either
ABSENT from the document's metadata or present with an exactly matching
value; documents lacking a filter key are kept, not dropped. -/
theorem retrieve_filter_amended (results : List Doc)
    (filters : List (PyStr × PyStr)) (d : Doc) (hf : filters ≠ []) :
    d ∈ retrieve results filters ↔
      d ∈ results ∧ ∀ kv ∈ filters, ∀ v,
        List.lookup kv.1 d.metadata = some v → v = kv.2 := by
  unfold retrieve
  by_cases hr : results = []
  · subst hr
    simp
  · rw [if_pos ⟨hf, hr⟩, List.mem_filter, matchesFilters_iff]

/-- Witness for C2: with filter `source = web`, a document carrying
`source = pdf` is dropped while one lacking the key is kept. -/
theorem retrieve_filter_amended_witness :
    ([(str "source", str "web")] : List (PyStr × PyStr)) ≠ [] ∧
    (Doc.mk (str "a") [] ∈
        retrieve [Doc.mk (str "a") [], Doc.mk (str "b") [(str "source", str "pdf")]]
          [(str "source", str "web")] ↔
      Doc.mk (str "a") [] ∈
          [Doc.mk (str "a") [], Doc.mk (str "b") [(str "source", str "pdf")]] ∧
        ∀ kv ∈ ([(str "source", str "web")] : List (PyStr × PyStr)), ∀ v,
          List.lookup kv.1 (Doc.mk (str "a") []).metadata = some v → v = kv.2) :=
  ⟨by decide,
    retrieve_filter_amended
      [Doc.mk (str "a") [], Doc.mk (str "b") [(str "source", str "pdf")]]
      [(str "source", str "web")] (Doc.mk (str "a") []) (by decide)⟩

/-- C5: `Generator.is_content_relevant` is a pure function of its inputs
that returns true iff at least two documents were retrieved and the total
character length of their texts is at least 500; in particular it is false
on the empty list and on any single document. -/
theorem relevance_gate_c5 (q : PyStr) (docs : List Doc) :
    (isContentRelevant q docs = true ↔
      2 ≤ docs.length ∧ 500 ≤ (docs.map (fun d => d.text.length)).sum) ∧
    isContentRelevant q [] = false ∧
    ∀ d : Doc, isContentRelevant q [d] = false := by
  refine ⟨?_, by simp [isContentRelevant], by intro d; simp [isContentRelevant]⟩
  unfold isContentRelevant
  split
  · rename_i hnil
    subst hnil
    simp
  · split
    · rename_i hlen
      constructor
      · intro h
        simp at h
      · intro hc
        exact absurd hc.1 (by omega)
    · split
      · rename_i hsum
        constructor
        · intro h
          simp at h
        · intro hc
          exact absurd hc.2 (by omega)
      · rename_i hnil hlen hsum
        constructor
        · intro _
          omega
        · intro _
          rfl

/-- C8: when the search returned results, `perform_dynamic_search` returns
the combined extracted content unmodified if its length is at most 4000
characters, and otherwise returns exactly its first 4000 characters with
the truncation marker appended once. -/
theorem dynamic_truncation_c8 (extract : PyStr → PyStr)
    (rs : List SearchResult) (h : rs ≠ []) :
    (4000 < (combinedContent extract rs).length →
      performDynamicSearch extract rs =
        (combinedContent extract rs).take 4000 ++ str "... [content truncated]") ∧
    ((combinedContent extract rs).length ≤ 4000 →
      performDynamicSearch extract rs = combinedContent extract rs) := by
  unfold performDynamicSearch
  rw [if_neg h]
  constructor <;> intro hlen
  · rw [if_pos hlen]
  · rw [if_neg (by omega)]

/-- Witness for C8: a single extractable result whose page text is 5000
characters produces combined content longer than 4000, which is truncated
with the marker appended. -/
theorem dynamic_truncation_c8_witness :
    ([SearchResult.mk (str "t") (some (str "u")) (str "s")] : List SearchResult) ≠ [] ∧
    4000 < (combinedContent (fun _ => List.replicate 5000 'a')
      [SearchResult.mk (str "t") (some (str "u")) (str "s")]).length ∧
    performDynamicSearch (fun _ => List.replicate 5000 'a')
        [SearchResult.mk (str "t") (some (str "u")) (str "s")] =
      (combinedContent (fun _ => List.replicate 5000 'a')
          [SearchResult.mk (str "t") (some (str "u")) (str "s")]).take 4000
        ++ str "... [content truncated]" := by
  have hcomb : combinedContent (fun _ => List.replicate 5000 'a')
      [SearchResult.mk (str "t") (some (str "u")) (str "s")] =
      str "[Source " ++ Nat.toDigits 10 1 ++ str ": " ++ str "u" ++ str "]\n"
        ++ List.replicate 5000 'a' ++ str "\n" := rfl
  have hlen : 4000 < (combinedContent (fun _ => List.replicate 5000 'a')
      [SearchResult.mk (str "t") (some (str "u")) (str "s")]).length := by
    rw [hcomb]
    simp only [List.length_append, List.length_replicate]
    omega
  exact ⟨by decide, hlen,
    (dynamic_truncation_c8 (fun _ => List.replicate 5000 'a')
      [SearchResult.mk (str "t") (some (str "u")) (str "s")] (by decide)).1 hlen⟩

/-- C1 (counterexample to the claim as stated): dynamic search enabled,
no local documents (gate fails), one search result with a URL whose
extraction FAILS (returns the extractor's error string). The claim requires
`used_dynamic_search = false` with the context falling back to the
local-only text; the code instead reports `used_dynamic_search = true`
and even merges the error text into the context. -/
theorem used_dynamic_search_cex :
    isContentRelevant (str "q") [] = false ∧
    (generateResponse (GenInputs.mk (str "q") [] true
        [SearchResult.mk (str "t") (some (str "u")) (str "s")]
        (fun _ => str "Error extracting content: timeout") [] true true
        (fun _ => Except.ok (str "ok")))).used_dynamic_search = true ∧
    (mergeContextSources (GenInputs.mk (str "q") [] true
        [SearchResult.mk (str "t") (some (str "u")) (str "s")]
        (fun _ => str "Error extracting content: timeout") [] true true
        (fun _ => Except.ok (str "ok")))).1 ≠ formatForPrompt [] := by
  refine ⟨by decide, by decide, ?_⟩
  intro h
  exact absurd h (by decide)

/-- C1 (amended): `used_dynamic_search` is true iff the dynamic-search
branch was TAKEN (dynamic search enabled and the relevance gate judged the
local content insufficient), regardless of whether the search produced
usable content; when the branch is taken but yields empty content or the
web-search sentinel, the context still falls back to the local-only text
while `used_dynamic_search` remains true. -/
theorem used_dynamic_search_amended (a : GenInputs) :
    ((generateResponse a).used_dynamic_search =
      (a.dynamicSearchEnabled && !isContentRelevant a.question a.retrievedDocs)) ∧
    (∀ dc, dynamicContent a = some dc →
      (dc = [] ∨ dc = str "No relevant information found from web search.") →
      (mergeContextSources a).1 = formatForPrompt a.retrievedDocs ∧
        (mergeContextSources a).2 = localSources a.retrievedDocs) := by
  constructor
  · show (dynamicContent a).isSome = _
    unfold dynamicContent
    by_cases h : (a.dynamicSearchEnabled &&
        !isContentRelevant a.question a.retrievedDocs) = true
    · rw [if_pos h, h]
      rfl
    · rw [if_neg h]
      simp only [Bool.not_eq_true] at h
      rw [h]
      rfl
  · intro dc hdc hbad
    simp only [mergeContextSources, hdc]
    have hcond : ¬ (dc ≠ [] ∧
        dc ≠ str "No relevant information found from web search.") := by
      rcases hbad with h | h <;> simp [h]
    rw [if_neg hcond]
    exact ⟨rfl, rfl⟩

/-- Witness for C1 (amended): enabled dynamic search, no local documents and
an empty search-result list make the branch run, return the web sentinel,
fall back to the local context, and still report `used_dynamic_search`
according to the branch condition. -/
theorem used_dynamic_search_amended_witness :
    dynamicContent (GenInputs.mk (str "q") [] true [] (fun _ => [])
        [] true true (fun _ => Except.ok (str "ok"))) =
      some (str "No relevant information found from web search.") ∧
    (generateResponse (GenInputs.mk (str "q") [] true [] (fun _ => [])
        [] true true (fun _ => Except.ok (str "ok")))).used_dynamic_search =
      (true && !isContentRelevant (str "q") []) ∧
    (mergeContextSources (GenInputs.mk (str "q") [] true [] (fun _ => [])
        [] true true (fun _ => Except.ok (str "ok")))).1 = formatForPrompt [] :=
  ⟨by decide,
    (used_dynamic_search_amended _).1,
    ((used_dynamic_search_amended _).2
      (str "No relevant information found from web search.") (by decide)
      (Or.inr rfl)).1⟩

/-- C7: when the dynamic-search branch produced usable content (non-empty
and not the web-search sentinel), the dynamic content replaces the local
context if the latter is the local sentinel, and is otherwise appended
under the `ADDITIONAL WEB SEARCH RESULTS` heading; and exactly on this
successful merge the literal tag `"Dynamic Web Search"` is appended to the
sources list. -/
theorem merge_semantics_c7 (a : GenInputs) :
    (∀ dc, dynamicContent a = some dc → dc ≠ [] →
      dc ≠ str "No relevant information found from web search." →
      ((formatForPrompt a.retrievedDocs = str "No relevant information found." →
          (mergeContextSources a).1 = dc) ∧
        (formatForPrompt a.retrievedDocs ≠ str "No relevant information found." →
          (mergeContextSources a).1 = formatForPrompt a.retrievedDocs ++
            str "\n\nADDITIONAL WEB SEARCH RESULTS:\n" ++ dc) ∧
        (mergeContextSources a).2 =
          localSources a.retrievedDocs ++ [str "Dynamic Web Search"])) ∧
    ((mergeContextSources a).2 =
        localSources a.retrievedDocs ++ [str "Dynamic Web Search"] ↔
      ∃ dc, dynamicContent a = some dc ∧ dc ≠ [] ∧
        dc ≠ str "No relevant information found from web search.") := by
  constructor
  · intro dc hdc hne hsent
    simp only [mergeContextSources, hdc]
    rw [if_pos ⟨hne, hsent⟩]
    refine ⟨?_, ?_, rfl⟩
    · intro hloc
      simp only [if_pos hloc]
    · intro hloc
      simp only [if_neg hloc]
  · constructor
    · intro htag
      cases hdc : dynamicContent a with
      | none =>
        simp only [mergeContextSources, hdc] at htag
        exfalso
        have := congrArg List.length htag
        simp at this
      | some dc =>
        simp only [mergeContextSources, hdc] at htag
        by_cases hu : dc ≠ [] ∧
            dc ≠ str "No relevant information found from web search."
        · exact ⟨dc, rfl, hu⟩
        · rw [if_neg hu] at htag
          exfalso
          have := congrArg List.length htag
          simp at this
    · intro ⟨dc, hdc, hne, hsent⟩
      simp only [mergeContextSources, hdc]
      rw [if_pos ⟨hne, hsent⟩]

/-- Witness for C7: no local documents (context is the local sentinel), one
extractable search result — the dynamic content replaces the context and
the tag is appended to the sources. -/
theorem merge_semantics_c7_witness :
    dynamicContent (GenInputs.mk (str "q") [] true
        [SearchResult.mk (str "t") (some (str "u")) (str "s")]
        (fun _ => str "good stuff") [] true true
        (fun _ => Except.ok (str "ok"))) =
      some (str "[Source 1: u]\ngood stuff\n") ∧
    str "[Source 1: u]\ngood stuff\n" ≠ ([] : PyStr) ∧
    formatForPrompt [] = str "No relevant information found." ∧
    (mergeContextSources (GenInputs.mk (str "q") [] true
        [SearchResult.mk (str "t") (some (str "u")) (str "s")]
        (fun _ => str "good stuff") [] true true
        (fun _ => Except.ok (str "ok")))).1 = str "[Source 1: u]\ngood stuff\n" ∧
    (mergeContextSources (GenInputs.mk (str "q") [] true
        [SearchResult.mk (str "t") (some (str "u")) (str "s")]
        (fun _ => str "good stuff") [] true true
        (fun _ => Except.ok (str "ok")))).2 =
      localSources [] ++ [str "Dynamic Web Search"] :=
  ⟨by decide, by decide, by decide,
    ((merge_semantics_c7 _).1 (str "[Source 1: u]\ngood stuff\n")
      (by decide) (by decide) (by decide)).1 (by decide),
    ((merge_semantics_c7 _).1 (str "[Source 1: u]\ngood stuff\n")
      (by decide) (by decide) (by decide)).2.2⟩

/-- C9: if the model call raises, the exception is caught inside
`LocalLLM.generate` and converted into a user-visible error string, and
`generate_response` still returns the well-formed envelope with the
question, the sources gathered so far, and the dynamic-search flag. -/
theorem generation_error_c9 (a : GenInputs) (e : PyStr)
    (hload : a.modelLoaded = true ∨ a.loadSuccess = true)
    (herr : a.llmRaw (buildPrompt a.promptTemplate
      (mergeContextSources a).1 a.question) = Except.error e) :
    generateResponse a = Response.mk a.question
      (str "Error during text generation: " ++ e)
      (mergeContextSources a).2 (dynamicContent a).isSome := by
  unfold generateResponse localLLMGenerate
  have hnb : (!a.modelLoaded && !a.loadSuccess) = false := by
    rcases hload with h | h <;> simp [h]
  simp only [hnb, Bool.false_eq_true, if_false, herr]

theorem leadsWith_head_ne (c₀ : Char) (p : PyStr) (x : Char) (l : PyStr)
    (h : x ≠ c₀) : leadsWith (c₀ :: p) (x :: l) = false := by
  simp only [leadsWith, Bool.and_eq_false_iff]
  left
  exact beq_eq_false_iff_ne.mpr (fun hc => h hc.symm)

theorem countOcc_headFree (c₀ : Char) (p : PyStr) (a b : PyStr) (h : c₀ ∉ a) :
    countOcc (c₀ :: p) (a ++ b) = countOcc (c₀ :: p) b := by
  induction a with
  | nil => rfl
  | cons x a ih =>
    have hx : x ≠ c₀ := fun hc => h (by simp [hc])
    have ha : c₀ ∉ a := fun hc => h (by simp [hc])
    rw [List.cons_append]
    show (if leadsWith (c₀ :: p) (x :: (a ++ b)) then 1 else 0) +
      countOcc (c₀ :: p) (a ++ b) = _
    rw [leadsWith_head_ne c₀ p x _ hx, ih ha]
    simp

theorem countOcc_free (c₀ : Char) (p : PyStr) (a : PyStr) (h : c₀ ∉ a) :
    countOcc (c₀ :: p) a = 0 := by
  have := countOcc_headFree c₀ p a [] h
  simpa using this

theorem countOcc_self (c₀ : Char) (p b : PyStr) :
    countOcc (c₀ :: p) ((c₀ :: p) ++ b) = 1 + countOcc (c₀ :: p) (p ++ b) := by
  show (if leadsWith (c₀ :: p) (c₀ :: (p ++ b)) then 1 else 0) + _ = _
  have : leadsWith (c₀ :: p) (c₀ :: (p ++ b)) = true := by
    have := leadsWith_self_append (c₀ :: p) b
    simpa using this
  rw [this]
  simp

theorem leadsWith_stops (p : PyStr) (hnl : '\n' ∉ p) :
    ∀ u t₁ t₂, leadsWith p (u ++ '\n' :: t₁) = leadsWith p (u ++ '\n' :: t₂) := by
  induction p with
  | nil => intro u t₁ t₂; rfl
  | cons q p ih =>
    intro u t₁ t₂
    have hq : q ≠ '\n' := fun hc => hnl (by simp [hc])
    match u with
    | [] =>
      rw [List.nil_append, List.nil_append,
        leadsWith_head_ne q p '\n' _ (fun hc => hq hc.symm),
        leadsWith_head_ne q p '\n' _ (fun hc => hq hc.symm)]
    | v :: u' =>
      have hp : '\n' ∉ p := fun hc => hnl (by simp [hc])
      show (q == v && leadsWith p (u' ++ '\n' :: t₁)) =
        (q == v && leadsWith p (u' ++ '\n' :: t₂))
      rw [ih hp u' t₁ t₂]

theorem leadsWith_snocNl (p : PyStr) (hnl : '\n' ∉ p) :
    ∀ u, leadsWith p (u ++ ['\n']) = leadsWith p u := by
  induction p with
  | nil => intro u; rfl
  | cons q p ih =>
    intro u
    have hq : q ≠ '\n' := fun hc => hnl (by simp [hc])
    match u with
    | [] =>
      rw [List.nil_append, leadsWith_head_ne q p '\n' _ (fun hc => hq hc.symm)]
      rfl
    | v :: u' =>
      have hp : '\n' ∉ p := fun hc => hnl (by simp [hc])
      show (q == v && leadsWith p (u' ++ ['\n'])) = (q == v && leadsWith p u')
      rw [ih hp u']

theorem countOcc_dropNl (c₀ : Char) (p : PyStr) (hnl : '\n' ∉ (c₀ :: p)) :
    ∀ a, countOcc (c₀ :: p) (a ++ ['\n']) = countOcc (c₀ :: p) a := by
  intro a
  induction a with
  | nil =>
    have hq : '\n' ≠ c₀ := fun hc => hnl (by simp [hc.symm])
    show (if leadsWith (c₀ :: p) ['\n'] then 1 else 0) + countOcc (c₀ :: p) [] =
      countOcc (c₀ :: p) []
    rw [leadsWith_head_ne c₀ p '\n' _ hq]
    simp [countOcc]
  | cons x a ih =>
    rw [List.cons_append]
    show (if leadsWith (c₀ :: p) (x :: (a ++ ['\n'])) then 1 else 0) +
        countOcc (c₀ :: p) (a ++ ['\n']) = _
    have hx : x :: (a ++ ['\n']) = (x :: a) ++ ['\n'] := by simp
    rw [hx, leadsWith_snocNl _ hnl (x :: a), ih]
    rfl

theorem countOcc_split (c₀ : Char) (p : PyStr) (hnl : '\n' ∉ (c₀ :: p)) :
    ∀ a b, countOcc (c₀ :: p) (a ++ '\n' :: b) =
      countOcc (c₀ :: p) a + countOcc (c₀ :: p) b := by
  intro a b
  induction a with
  | nil =>
    have hq : '\n' ≠ c₀ := fun hc => hnl (by simp [hc.symm])
    show (if leadsWith (c₀ :: p) ('\n' :: b) then 1 else 0) +
        countOcc (c₀ :: p) b = _
    rw [leadsWith_head_ne c₀ p '\n' _ hq]
    simp [countOcc]
  | cons x a ih =>
    rw [List.cons_append]
    show (if leadsWith (c₀ :: p) (x :: (a ++ '\n' :: b)) then 1 else 0) +
        countOcc (c₀ :: p) (a ++ '\n' :: b) = _
    have hx : x :: (a ++ '\n' :: b) = (x :: a) ++ '\n' :: b := by simp
    have hx' : x :: (a ++ '\n' :: []) = (x :: a) ++ '\n' :: [] := by simp
    rw [hx, leadsWith_stops _ hnl (x :: a) b [], ← hx', ih]
    show (if leadsWith (c₀ :: p) ((x :: a) ++ ['\n']) then 1 else 0) + _ = _
    rw [leadsWith_snocNl _ hnl (x :: a)]
    show _ = (if leadsWith (c₀ :: p) (x :: a) then 1 else 0) +
      countOcc (c₀ :: p) a + countOcc (c₀ :: p) b
    omega

theorem toDigitsCore_digits :
    ∀ fuel n ds, (∀ c ∈ ds, c.isDigit = true) →
      ∀ c ∈ Nat.toDigitsCore 10 fuel n ds, c.isDigit = true := by
  intro fuel
  induction fuel with
  | zero => intro n ds hds c hc; exact hds c hc
  | succ f ih =>
    intro n ds hds c hc
    simp only [Nat.toDigitsCore] at hc
    have hmod : (Nat.digitChar (n % 10)).isDigit = true :=
      digitChar_isDigit _ (Nat.mod_lt _ (by norm_num))
    split at hc
    · rcases List.mem_cons.mp hc with hc | hc
      · rw [hc]; exact hmod
      · exact hds c hc
    · refine ih (n / 10) _ ?_ c hc
      intro d hd
      rcases List.mem_cons.mp hd with hd | hd
      · rw [hd]; exact hmod
      · exact hds d hd

theorem toDigits_digits (n : Nat) : ∀ c ∈ Nat.toDigits 10 n, c.isDigit = true :=
  toDigitsCore_digits (n + 1) n [] (by simp)

theorem digit_avoids (c : Char) (h : c.isDigit = true) :
    c ≠ '[' ∧ c ≠ 'S' ∧ c ≠ '\n' := by
  refine ⟨?_, ?_, ?_⟩ <;> intro hc <;> rw [hc] at h <;> exact absurd h (by decide)

theorem srcPart_eq_of_some (d : Doc) (s : PyStr)
    (hl : List.lookup (str "source") d.metadata = some s) (hse : s ≠ []) :
    srcPart d = str "Source: " ++ s ++ str "\n" := by
  simp only [srcPart, hl, if_pos hse]

theorem srcPart_eq_nil (d : Doc) (h : hasSrc d = false) : srcPart d = [] := by
  unfold hasSrc at h
  unfold srcPart
  cases hl : List.lookup (str "source") d.metadata with
  | none => rfl
  | some s =>
    rw [hl] at h
    have hse : s = [] := by simpa [List.isEmpty_iff] using h
    simp [hse]

theorem hasSrc_true_iff (d : Doc) : hasSrc d = true ↔
    ∃ s, List.lookup (str "source") d.metadata = some s ∧ s ≠ [] := by
  unfold hasSrc
  cases hl : List.lookup (str "source") d.metadata with
  | none => simp
  | some s => simp [List.isEmpty_iff]

theorem docBlock_shape (i : Nat) (d : Doc) (rest : PyStr) :
    docBlock i d ++ rest =
      str "[Document " ++ (Nat.toDigits 10 (i + 1) ++ (str "]\n" ++
        (d.text ++ (str "\n" ++ (srcPart d ++ (str "\n" ++
          (List.replicate 40 '-' ++ (str "\n\n" ++ rest)))))))) := by
  simp only [docBlock, srcPart, List.append_assoc]

/-- Occurrences of the `[Document ` marker contributed by one document
block: exactly one, provided the document's text and source string do not
themselves contain the marker. -/
theorem marker_block_count (i : Nat) (d : Doc) (rest : PyStr)
    (ht : countOcc (str "[Document ") d.text = 0)
    (hs : ∀ s, List.lookup (str "source") d.metadata = some s →
      countOcc (str "[Document ") s = 0) :
    countOcc (str "[Document ") (docBlock i d ++ rest) =
      1 + countOcc (str "[Document ") rest := by
  have hnl : ('\n' : Char) ∉ ('[' :: str "Document ") := by decide
  have hdig : '[' ∉ Nat.toDigits 10 (i + 1) := by
    intro hmem
    exact absurd rfl (digit_avoids _ (toDigits_digits (i + 1) _ hmem)).1
  rw [docBlock_shape]
  -- regroup so that the first newline separator is explicit
  have h1 : str "[Document " ++ (Nat.toDigits 10 (i + 1) ++ (str "]\n" ++
        (d.text ++ (str "\n" ++ (srcPart d ++ (str "\n" ++
          (List.replicate 40 '-' ++ (str "\n\n" ++ rest)))))))) =
      (str "[Document " ++ Nat.toDigits 10 (i + 1) ++ [']']) ++ '\n' ::
        (d.text ++ '\n' ::
          (srcPart d ++ '\n' ::
            (List.replicate 40 '-' ++ '\n' :: '\n' :: rest))) := by
    simp only [List.append_assoc]
    rfl
  rw [h1]
  show countOcc ('[' :: str "Document ") _ =
    1 + countOcc ('[' :: str "Document ") rest
  have ht' : countOcc ('[' :: str "Document ") d.text = 0 := ht
  have hs' : ∀ s, List.lookup (str "source") d.metadata = some s →
      countOcc ('[' :: str "Document ") s = 0 := hs
  rw [countOcc_split _ _ hnl, countOcc_split _ _ hnl]
  have hA : countOcc ('[' :: str "Document ")
      (str "[Document " ++ Nat.toDigits 10 (i + 1) ++ [']']) = 1 := by
    have h2 : str "[Document " ++ Nat.toDigits 10 (i + 1) ++ [']'] =
        ('[' :: str "Document ") ++ (Nat.toDigits 10 (i + 1) ++ [']']) := by
      simp only [List.append_assoc]
      rfl
    rw [h2, countOcc_self]
    have h3 : '[' ∉ str "Document " ++ (Nat.toDigits 10 (i + 1) ++ [']']) := by
      intro hmem
      rcases List.mem_append.mp hmem with hm | hm
      · exact absurd hm (by decide)
      · rcases List.mem_append.mp hm with hm | hm
        · exact hdig hm
        · exact absurd hm (by decide)
    rw [countOcc_free _ _ _ h3]
  rw [hA, ht']
  have hSrc : countOcc ('[' :: str "Document ")
      (srcPart d ++ '\n' :: (List.replicate 40 '-' ++ '\n' :: '\n' :: rest)) =
      countOcc ('[' :: str "Document ") rest := by
    have htail : countOcc ('[' :: str "Document ")
        ('\n' :: (List.replicate 40 '-' ++ '\n' :: '\n' :: rest)) =
        countOcc ('[' :: str "Document ") rest := by
      have hf1 : '\n' :: (List.replicate 40 '-' ++ '\n' :: '\n' :: rest) =
          ['\n'] ++ (List.replicate 40 '-' ++ '\n' :: '\n' :: rest) := rfl
      rw [hf1, countOcc_headFree _ _ _ _ (by decide)]
      have hrl : '[' ∉ List.replicate 40 '-' := by
        intro hmem
        have := List.eq_of_mem_replicate hmem
        exact absurd this (by decide)
      rw [countOcc_headFree _ _ _ _ hrl]
      show countOcc ('[' :: str "Document ") (['\n', '\n'] ++ rest) = _
      rw [countOcc_headFree _ _ _ _ (by decide)]
    by_cases hsd : hasSrc d = true
    · obtain ⟨s, hl, hse⟩ := (hasSrc_true_iff d).mp hsd
      rw [srcPart_eq_of_some d s hl hse]
      have h4 : (str "Source: " ++ s ++ str "\n") ++ '\n' ::
          (List.replicate 40 '-' ++ '\n' :: '\n' :: rest) =
          str "Source: " ++ (s ++ '\n' ::
            ('\n' :: (List.replicate 40 '-' ++ '\n' :: '\n' :: rest))) := by
        simp only [List.append_assoc]
        rfl
      rw [h4, countOcc_headFree _ _ _ _ (by decide),
        countOcc_split _ _ hnl, hs' s hl, htail]
      omega
    · rw [srcPart_eq_nil d (by simpa using hsd), List.nil_append, htail]
  rw [hSrc]
  omega

/-- Occurrences of the `Source: ` pattern contributed by one document block:
one exactly when the document carries a non-empty source, provided the
document's text and source string do not themselves contain the pattern. -/
theorem source_block_count (i : Nat) (d : Doc) (rest : PyStr)
    (ht : countOcc (str "Source: ") d.text = 0)
    (hs : ∀ s, List.lookup (str "source") d.metadata = some s →
      countOcc (str "Source: ") s = 0) :
    countOcc (str "Source: ") (docBlock i d ++ rest) =
      (if hasSrc d then 1 else 0) + countOcc (str "Source: ") rest := by
  have hnl : ('\n' : Char) ∉ ('S' :: str "ource: ") := by decide
  have hdig : 'S' ∉ Nat.toDigits 10 (i + 1) := by
    intro hmem
    exact absurd rfl (digit_avoids _ (toDigits_digits (i + 1) _ hmem)).2.1
  rw [docBlock_shape]
  have h1 : str "[Document " ++ (Nat.toDigits 10 (i + 1) ++ (str "]\n" ++
        (d.text ++ (str "\n" ++ (srcPart d ++ (str "\n" ++
          (List.replicate 40 '-' ++ (str "\n\n" ++ rest)))))))) =
      (str "[Document " ++ Nat.toDigits 10 (i + 1) ++ [']']) ++ '\n' ::
        (d.text ++ '\n' ::
          (srcPart d ++ '\n' ::
            (List.replicate 40 '-' ++ '\n' :: '\n' :: rest))) := by
    simp only [List.append_assoc]
    rfl
  rw [h1]
  show countOcc ('S' :: str "ource: ") _ =
    (if hasSrc d then 1 else 0) + countOcc ('S' :: str "ource: ") rest
  have ht' : countOcc ('S' :: str "ource: ") d.text = 0 := ht
  have hs' : ∀ s, List.lookup (str "source") d.metadata = some s →
      countOcc ('S' :: str "ource: ") s = 0 := hs
  rw [countOcc_split _ _ hnl, countOcc_split _ _ hnl]
  have hA : countOcc ('S' :: str "ource: ")
      (str "[Document " ++ Nat.toDigits 10 (i + 1) ++ [']']) = 0 := by
    refine countOcc_free _ _ _ ?_
    intro hmem
    rcases List.mem_append.mp hmem with hm | hm
    · rcases List.mem_append.mp hm with hm | hm
      · exact absurd hm (by decide)
      · exact hdig hm
    · exact absurd hm (by decide)
  rw [hA, ht']
  have htail : countOcc ('S' :: str "ource: ")
      ('\n' :: (List.replicate 40 '-' ++ '\n' :: '\n' :: rest)) =
      countOcc ('S' :: str "ource: ") rest := by
    have hf1 : '\n' :: (List.replicate 40 '-' ++ '\n' :: '\n' :: rest) =
        ['\n'] ++ (List.replicate 40 '-' ++ '\n' :: '\n' :: rest) := rfl
    rw [hf1, countOcc_headFree _ _ _ _ (by decide)]
    have hrl : 'S' ∉ List.replicate 40 '-' := by
      intro hmem
      have := List.eq_of_mem_replicate hmem
      exact absurd this (by decide)
    rw [countOcc_headFree _ _ _ _ hrl]
    show countOcc ('S' :: str "ource: ") (['\n', '\n'] ++ rest) = _
    rw [countOcc_headFree _ _ _ _ (by decide)]
  by_cases hsd : hasSrc d = true
  · obtain ⟨s, hl, hse⟩ := (hasSrc_true_iff d).mp hsd
    rw [if_pos hsd, srcPart_eq_of_some d s hl hse]
    have h4 : (str "Source: " ++ s ++ str "\n") ++ '\n' ::
        (List.replicate 40 '-' ++ '\n' :: '\n' :: rest) =
        ('S' :: str "ource: ") ++ (s ++ '\n' ::
          ('\n' :: (List.replicate 40 '-' ++ '\n' :: '\n' :: rest))) := by
      simp only [List.append_assoc]
      rfl
    rw [h4, countOcc_self]
    rw [countOcc_headFree _ _ _ _ (by decide : 'S' ∉ str "ource: "),
      countOcc_split _ _ hnl, hs' s hl, htail]
    omega
  · have hsd' : hasSrc d = false := by simpa using hsd
    rw [if_neg (by simp [hsd']), srcPart_eq_nil d hsd', List.nil_append, htail]
    omega

theorem marker_blocksCat :
    ∀ docs : List Doc, ∀ i (rest : PyStr),
      (∀ d ∈ docs, countOcc (str "[Document ") d.text = 0 ∧
        ∀ s, List.lookup (str "source") d.metadata = some s →
          countOcc (str "[Document ") s = 0) →
      countOcc (str "[Document ") (blocksCat i docs ++ rest) =
        docs.length + countOcc (str "[Document ") rest := by
  intro docs
  induction docs with
  | nil =>
    intro i rest _
    simp [blocksCat]
  | cons d ds ih =>
    intro i rest hh
    have hd := hh d (by simp)
    have hds : ∀ d' ∈ ds, countOcc (str "[Document ") d'.text = 0 ∧
        ∀ s, List.lookup (str "source") d'.metadata = some s →
          countOcc (str "[Document ") s = 0 :=
      fun d' hd' => hh d' (by simp [hd'])
    have hshape : blocksCat i (d :: ds) ++ rest =
        docBlock i d ++ (blocksCat (i + 1) ds ++ rest) := by
      simp [blocksCat, List.append_assoc]
    rw [hshape, marker_block_count i d _ hd.1 hd.2, ih (i + 1) rest hds]
    simp only [List.length_cons]
    omega

theorem source_blocksCat :
    ∀ docs : List Doc, ∀ i (rest : PyStr),
      (∀ d ∈ docs, countOcc (str "Source: ") d.text = 0 ∧
        ∀ s, List.lookup (str "source") d.metadata = some s →
          countOcc (str "Source: ") s = 0) →
      countOcc (str "Source: ") (blocksCat i docs ++ rest) =
        (docs.filter hasSrc).length + countOcc (str "Source: ") rest := by
  intro docs
  induction docs with
  | nil =>
    intro i rest _
    simp [blocksCat]
  | cons d ds ih =>
    intro i rest hh
    have hd := hh d (by simp)
    have hds : ∀ d' ∈ ds, countOcc (str "Source: ") d'.text = 0 ∧
        ∀ s, List.lookup (str "source") d'.metadata = some s →
          countOcc (str "Source: ") s = 0 :=
      fun d' hd' => hh d' (by simp [hd'])
    have hshape : blocksCat i (d :: ds) ++ rest =
        docBlock i d ++ (blocksCat (i + 1) ds ++ rest) := by
      simp [blocksCat, List.append_assoc]
    rw [hshape, source_block_count i d _ hd.1 hd.2, ih (i + 1) rest hds]
    rw [List.filter_cons]
    by_cases hsd : hasSrc d = true <;> simp [hsd] <;> omega

/-- C6: `format_for_prompt` renders the empty sequence to the literal
sentinel `"No relevant information found."`; on a non-empty sequence whose
texts and source values do not themselves contain the rendered patterns,
the output contains exactly `len(docs)` occurrences of the `[Document `
marker, and exactly one `Source: ` line per document whose metadata holds a
non-empty source. -/
theorem format_for_prompt_c6 :
    formatForPrompt [] = str "No relevant information found." ∧
    ∀ docs : List Doc, docs ≠ [] →
      (∀ d ∈ docs, countOcc (str "[Document ") d.text = 0 ∧
        countOcc (str "Source: ") d.text = 0 ∧
        countOcc (str "[Document ")
          ((List.lookup (str "source") d.metadata).getD []) = 0 ∧
        countOcc (str "Source: ")
          ((List.lookup (str "source") d.metadata).getD []) = 0) →
      countOcc (str "[Document ") (formatForPrompt docs) = docs.length ∧
      countOcc (str "Source: ") (formatForPrompt docs) =
        (docs.filter hasSrc).length := by
  refine ⟨rfl, ?_⟩
  intro docs hne hclean
  unfold formatForPrompt
  rw [if_neg hne]
  constructor
  · have h2 : countOcc ('[' :: str "Document ") (blocksCat 0 docs ++ []) =
        docs.length + countOcc ('[' :: str "Document ") [] := by
      refine marker_blocksCat docs 0 [] ?_
      intro d hd
      refine ⟨(hclean d hd).1, ?_⟩
      intro s hsl
      have := (hclean d hd).2.2.1
      rw [hsl] at this
      simpa using this
    have h2' : countOcc ('[' :: str "Document ") (blocksCat 0 docs) =
        docs.length := by
      simpa [countOcc] using h2
    show countOcc ('[' :: str "Document ")
      (str "RELEVANT INFORMATION:" ++ '\n' :: ('\n' :: blocksCat 0 docs)) =
      docs.length
    rw [countOcc_split _ _ (by decide), countOcc_free _ _ _ (by decide)]
    have h1 : ('\n' :: blocksCat 0 docs) = ['\n'] ++ blocksCat 0 docs := rfl
    rw [h1, countOcc_headFree _ _ _ _ (by decide), h2']
    omega
  · have h2 : countOcc ('S' :: str "ource: ") (blocksCat 0 docs ++ []) =
        (docs.filter hasSrc).length + countOcc ('S' :: str "ource: ") [] := by
      refine source_blocksCat docs 0 [] ?_
      intro d hd
      refine ⟨(hclean d hd).2.1, ?_⟩
      intro s hsl
      have := (hclean d hd).2.2.2
      rw [hsl] at this
      simpa using this
    have h2' : countOcc ('S' :: str "ource: ") (blocksCat 0 docs) =
        (docs.filter hasSrc).length := by
      simpa [countOcc] using h2
    show countOcc ('S' :: str "ource: ")
      (str "RELEVANT INFORMATION:" ++ '\n' :: ('\n' :: blocksCat 0 docs)) =
      (docs.filter hasSrc).length
    rw [countOcc_split _ _ (by decide), countOcc_free _ _ _ (by decide)]
    have h1 : ('\n' :: blocksCat 0 docs) = ['\n'] ++ blocksCat 0 docs := rfl
    rw [h1, countOcc_headFree _ _ _ _ (by decide), h2']
    omega

/-- Witness for C6: two documents, the first with a non-empty source — the
rendered prompt holds two `[Document ` markers and one `Source: ` line. -/
theorem format_for_prompt_c6_witness :
    ([Doc.mk (str "hello") [(str "source", str "web")],
      Doc.mk (str "more text") []] : List Doc) ≠ [] ∧
    countOcc (str "[Document ")
      (formatForPrompt [Doc.mk (str "hello") [(str "source", str "web")],
        Doc.mk (str "more text") []]) = 2 ∧
    countOcc (str "Source: ")
      (formatForPrompt [Doc.mk (str "hello") [(str "source", str "web")],
        Doc.mk (str "more text") []]) =
      ([Doc.mk (str "hello") [(str "source", str "web")],
        Doc.mk (str "more text") []].filter hasSrc).length :=
  ⟨by decide,
    (format_for_prompt_c6.2 _ (by decide) (by decide)).1,
    (format_for_prompt_c6.2 _ (by decide) (by decide)).2⟩

/-- Witness for C9: a model call that always raises `"boom"` yields the
error-string answer inside an intact envelope. -/
theorem generation_error_c9_witness :
    ((GenInputs.mk (str "q") [] false [] (fun _ => []) [] true true
        (fun _ => Except.error (str "boom"))).modelLoaded = true ∨
      (GenInputs.mk (str "q") [] false [] (fun _ => []) [] true true
        (fun _ => Except.error (str "boom"))).loadSuccess = true) ∧
    generateResponse (GenInputs.mk (str "q") [] false [] (fun _ => []) [] true true
        (fun _ => Except.error (str "boom"))) =
      Response.mk (str "q") (str "Error during text generation: " ++ str "boom")
        (mergeContextSources (GenInputs.mk (str "q") [] false [] (fun _ => [])
          [] true true (fun _ => Except.error (str "boom")))).2
        (dynamicContent (GenInputs.mk (str "q") [] false [] (fun _ => [])
          [] true true (fun _ => Except.error (str "boom")))).isSome :=
  ⟨Or.inl rfl,
    generation_error_c9 _ (str "boom") (Or.inl rfl) rfl⟩

/-- C10: in `format_response_with_sources` the deduplicated sources are
enumerated with the index advancing even for entries that are skipped
(empty or `"Unknown"`), so (i) skipped-only lists print nothing, (ii) a
printable entry at position `j` is numbered `i + j + 1` by absolute
position regardless of skips before it, (iii) with unique sources
`["Unknown", "w"]` the display starts at `2.` (number `1` is skipped), and
(iv) an admissible set order can display sources in an order different from
the one in which they were gathered. -/
theorem format_sources_c10 :
    (∀ i (l : List PyStr), (∀ s ∈ l, s = [] ∨ s = str "Unknown") →
      sourceLinesAux i l = []) ∧
    (∀ (l : List PyStr) i j (h : j < l.length),
      l.get ⟨j, h⟩ ≠ [] → l.get ⟨j, h⟩ ≠ str "Unknown" →
      ∃ pre post, sourceLinesAux i l =
        pre ++ (Nat.toDigits 10 (i + j + 1) ++ str ". " ++ l.get ⟨j, h⟩ ++
          str "\n") ++ post) ∧
    (SetOrder [str "Unknown", str "w"] [str "Unknown", str "w"] ∧
      formatResponseWithSources
        (Response.mk (str "q") (str "A") [str "Unknown", str "w"] false)
        [str "Unknown", str "w"] = str "A\n\nSources:\n2. w\n") ∧
    (SetOrder [str "a", str "b"] [str "b", str "a"] ∧
      formatResponseWithSources
        (Response.mk (str "q") (str "A") [str "a", str "b"] false)
        [str "b", str "a"] = str "A\n\nSources:\n1. b\n2. a\n") := by
  refine ⟨?_, ?_, ⟨⟨by decide, by decide, by decide⟩, by decide⟩,
    ⟨⟨by decide, by decide, by decide⟩, by decide⟩⟩
  · intro i l
    induction l generalizing i with
    | nil => intro _; rfl
    | cons s rest ih =>
      intro hall
      have hsk : ¬ (s ≠ [] ∧ s ≠ str "Unknown") := by
        rcases hall s (by simp) with h | h <;> simp [h]
      show (if s ≠ [] ∧ s ≠ str "Unknown" then
          Nat.toDigits 10 (i + 1) ++ str ". " ++ s ++ str "\n" else []) ++
        sourceLinesAux (i + 1) rest = []
      rw [if_neg hsk, ih (i + 1) (fun u hu => hall u (by simp [hu]))]
      rfl
  · intro l
    induction l with
    | nil =>
      intro i j h
      simp at h
    | cons s rest ih =>
      intro i j h
      match j with
      | 0 =>
        intro hne hunk
        refine ⟨[], sourceLinesAux (i + 1) rest, ?_⟩
        show (if s ≠ [] ∧ s ≠ str "Unknown" then
            Nat.toDigits 10 (i + 1) ++ str ". " ++ s ++ str "\n" else []) ++
          sourceLinesAux (i + 1) rest = _
        rw [if_pos ⟨hne, hunk⟩]
        simp
      | Nat.succ j' =>
        intro hne hunk
        have h' : j' < rest.length := by simpa using h
        obtain ⟨pre, post, heq⟩ := ih (i + 1) j' h' hne hunk
        refine ⟨(if s ≠ [] ∧ s ≠ str "Unknown" then
            Nat.toDigits 10 (i + 1) ++ str ". " ++ s ++ str "\n" else [])
          ++ pre, post, ?_⟩
        show (if s ≠ [] ∧ s ≠ str "Unknown" then
            Nat.toDigits 10 (i + 1) ++ str ". " ++ s ++ str "\n" else []) ++
          sourceLinesAux (i + 1) rest = _
        rw [heq]
        have harith : i + 1 + j' + 1 = i + (j' + 1) + 1 := by omega
        rw [harith]
        simp [List.append_assoc]

/-- Witness for C10: a list whose entries are all skippable prints nothing,
and in `["Unknown", "w"]` the entry `"w"` at position 1 is numbered `2`. -/
theorem format_sources_c10_witness :
    (∀ s ∈ [str "Unknown", ([] : PyStr)], s = [] ∨ s = str "Unknown") ∧
    sourceLinesAux 0 [str "Unknown", ([] : PyStr)] = [] ∧
    ((str "w" : PyStr) ≠ [] ∧ (str "w" : PyStr) ≠ str "Unknown") ∧
    (∃ pre post, sourceLinesAux 0 [str "Unknown", str "w"] =
      pre ++ (Nat.toDigits 10 (0 + 1 + 1) ++ str ". " ++
        ([str "Unknown", str "w"].get ⟨1, by decide⟩) ++ str "\n") ++ post) :=
  ⟨by decide,
    format_sources_c10.1 0 [str "Unknown", ([] : PyStr)] (by decide),
    ⟨by decide, by decide⟩,
    format_sources_c10.2.1 [str "Unknown", str "w"] 0 1 (by decide)
      (by decide) (by decide)⟩

end TechMentor
